import Mathlib

/-!
Verification of the `tabled` table builder
(`src/tabled/src/builder/table_builder.rs`) and the `Tabled` record-conversion
protocol (`src/src/tabled.rs`), as a shallow embedding.

Modelling conventions:
* `CellInfo<String>` carries a string plus cached width data; only the string
  is observable through the builder API, so a cell is modelled as `String`.
* `Vec<T>` is modelled as `List T`; `Vec::insert` / `Vec::remove`, which
  panic when the index is out of bounds, are modelled by `vecInsert` /
  `vecRemove` returning `Option` (`none` models the panic/abort).
* Operations that can panic (index out of bounds, `usize` underflow in a
  debug build) return `Option Builder`; total operations return `Builder`.
* Iterator pipelines (`create_row`, `chain(repeat(String::new()))`) are
  modelled by direct list recursion with the same semantics.
-/

namespace TabledSpec

abbrev Row : Type := List String

/-- `Vec::insert(index, element)`: `none` models the panic when
`index > len`. -/
def vecInsert : List α → Nat → α → Option (List α)
  | l, 0, a => some (a :: l)
  | [], _ + 1, _ => none
  | x :: l, n + 1, a => (vecInsert l n a).map (x :: ·)

/-- `Vec::remove(index)`: `none` models the panic when `index >= len`. -/
def vecRemove : List α → Nat → Option (List α)
  | [], _ => none
  | _ :: l, 0 => some l
  | x :: l, n + 1 => (vecRemove l n).map (x :: ·)

/-- The `Builder` struct (fields exactly as in the source). -/
structure Builder where
  data : List Row
  columns : Option Row
  count_columns : Nat
  is_consistent : Bool
  empty_cell_text : Option String
deriving DecidableEq

/-- `Builder::default()` / `Builder::new()`: `#[derive(Default)]` gives
`false` for the `bool` field. -/
def Builder.mkDefault : Builder :=
  { data := [], columns := none, count_columns := 0,
    is_consistent := false, empty_cell_text := none }

/-- `Builder::update_size` (source lines 415-433). -/
def Builder.update_size (b : Builder) (size : Nat) : Builder :=
  if size < b.count_columns then
    if !b.data.isEmpty then { b with is_consistent := false } else b
  else if b.count_columns < size then
    let b := { b with count_columns := size }
    if !b.data.isEmpty || b.columns.isSome then { b with is_consistent := false }
    else b
  else
    b

/-- `Builder::get_size` (source lines 435-441).  Note that it reads
`self.columns` at call time. -/
def Builder.get_size (b : Builder) : Nat :=
  let m := match b.columns with
    | some cs => cs.length
    | none => 0
  let maxRecords := (b.data.map List.length).foldr Nat.max 0
  Nat.max maxRecords m

/-- `Builder::set_header` (`create_row` only converts the items, so the row is
taken as given). -/
def Builder.set_header (b : Builder) (columns : Row) : Builder :=
  let b := b.update_size columns.length
  { b with columns := some columns }

/-- `Builder::remove_header`: the header is cleared *before* `get_size` runs,
so the recomputed width never sees the old header. -/
def Builder.remove_header (b : Builder) : Builder :=
  let b := { b with columns := none }
  { b with count_columns := b.get_size }

/-- `Builder::set_default_text`. -/
def Builder.set_default_text (b : Builder) (text : String) : Builder :=
  { b with empty_cell_text := some text }

/-- `Builder::push_record`. -/
def Builder.push_record (b : Builder) (row : Row) : Builder :=
  let b := b.update_size row.length
  { b with data := b.data ++ [row] }

/-- `Builder::insert_record`: `update_size` runs first, then
`Vec::insert` (which panics when `index > len`, modelled by `none`); on
success the function returns `true`. -/
def Builder.insert_record (b : Builder) (index : Nat) (record : Row) :
    Option (Builder × Bool) :=
  let b := b.update_size record.length
  match vecInsert b.data index record with
  | none => none
  | some d => some ({ b with data := d }, true)

/-- `Builder::remove_record`: `Vec::remove` panics when out of range. -/
def Builder.remove_record (b : Builder) (index : Nat) : Option Builder :=
  (vecRemove b.data index).map (fun d => { b with data := d })

/-- Padding of one row by `append_vec` inside `fit_rows_length`:
`if count > len { append count - len copies of the fill text }`. -/
def padTo (count : Nat) (fill : String) (r : Row) : Row :=
  if r.length < count then r ++ List.replicate (count - r.length) fill else r

/-- `Builder::fit_rows_length` (source lines 443-460). -/
def Builder.fit_rows_length (b : Builder) : Builder :=
  let fill := b.empty_cell_text.getD ""
  { b with
    columns := match b.columns with
      | some header => some (padTo b.count_columns fill header)
      | none => none,
    data := b.data.map (padTo b.count_columns fill) }

/-- The row update of `push_column`: the remaining cells are chained with
`repeat(String::new())` and zipped against the rows, so every row receives
exactly one new cell and surplus cells are dropped. -/
def padZipPush : List Row → List String → List Row
  | [], _ => []
  | r :: rs, [] => (r ++ [""]) :: padZipPush rs []
  | r :: rs, c :: cs => (r ++ [c]) :: padZipPush rs cs

/-- `Builder::push_column` (source lines 341-369): normalizes first when the
builder is flagged inconsistent; when a header exists its first supplied cell
(default empty) extends the header. -/
def Builder.push_column (b : Builder) (column : List String) : Builder :=
  let b := if b.is_consistent then b else b.fit_rows_length
  match b.columns with
  | some cs =>
    { b with
      columns := some (cs ++ [column.headD ""]),
      data := padZipPush b.data column.tail,
      count_columns := b.count_columns + 1 }
  | none =>
    { b with
      data := padZipPush b.data column,
      count_columns := b.count_columns + 1 }

/-- The row update of `insert_column`: as `padZipPush` but with
`Vec::insert` at a fixed position in every row (`none` models a panic). -/
def padZipInsert : List Row → List String → Nat → Option (List Row)
  | [], _, _ => some []
  | r :: rs, [], i =>
    match vecInsert r i "" with
    | none => none
    | some r2 =>
      match padZipInsert rs [] i with
      | none => none
      | some rs2 => some (r2 :: rs2)
  | r :: rs, c :: cs, i =>
    match vecInsert r i c with
    | none => none
    | some r2 =>
      match padZipInsert rs cs i with
      | none => none
      | some rs2 => some (r2 :: rs2)

/-- `Builder::insert_column` (source lines 378-406). -/
def Builder.insert_column (b : Builder) (column : List String) (index : Nat) :
    Option Builder :=
  let b := if b.is_consistent then b else b.fit_rows_length
  match b.columns with
  | some cs =>
    match vecInsert cs index (column.headD "") with
    | none => none
    | some cs2 =>
      match padZipInsert b.data column.tail index with
      | none => none
      | some d2 =>
        some { b with columns := some cs2, data := d2,
                      count_columns := b.count_columns + 1 }
  | none =>
    match padZipInsert b.data column index with
    | none => none
    | some d2 =>
      some { b with data := d2, count_columns := b.count_columns + 1 }

/-- `for row in &mut self.data { row.remove(index); }` — removes the cell at
one index from every row in order, panicking (`none`) at the first row that
is too short. -/
def removeColEvery : List Row → Nat → Option (List Row)
  | [], _ => some []
  | r :: rs, i =>
    match vecRemove r i with
    | none => none
    | some r2 =>
      match removeColEvery rs i with
      | none => none
      | some rs2 => some (r2 :: rs2)

/-- `Builder::remove_column` (source lines 324-336).  There is no
normalization step; header and rows are indexed directly.  The trailing
`count_columns -= 1` is a `usize` subtraction whose underflow (debug panic)
is modelled by `none`. -/
def Builder.remove_column (b : Builder) (index : Nat) : Option Builder :=
  match b.columns with
  | none =>
    match removeColEvery b.data index with
    | none => none
    | some data2 =>
      match b.count_columns with
      | 0 => none
      | n + 1 => some { b with data := data2, count_columns := n }
  | some cs =>
    match vecRemove cs index with
    | none => none
    | some cs2 =>
      match removeColEvery b.data index with
      | none => none
      | some data2 =>
        match b.count_columns with
        | 0 => none
        | n + 1 => some { b with columns := some cs2, data := data2, count_columns := n }

/-- `Builder::clear` (source lines 409-413). -/
def Builder.clear (b : Builder) : Builder :=
  { b with data := [],
           is_consistent := true,
           count_columns := match b.columns with
             | some cs => cs.length
             | none => 0 }

/-- `Builder::hint_column_size` (source lines 279-283): trusts the caller. -/
def Builder.hint_column_size (b : Builder) (size : Nat) : Builder :=
  { b with count_columns := size, is_consistent := true }

/-- `Builder::count_records`. -/
def Builder.count_records (b : Builder) : Nat :=
  b.data.length

/-- `From<Builder> for Vec<Vec<String>>` (source lines 463-478): pad when the
flag says inconsistent, then prepend the header. -/
def Builder.intoGrid (b : Builder) : List Row :=
  let b := if b.is_consistent then b else b.fit_rows_length
  match b.columns with
  | some cs => cs :: b.data
  | none => b.data

/-- `From<Vec<Vec<String>>> for Builder` (source lines 519-536):
`count_columns` is taken from the *first* row only, and the flag is set to
`false`. -/
def Builder.fromRows (data : List Row) : Builder :=
  { data := data,
    columns := none,
    count_columns := match data with
      | row :: _ => row.length
      | [] => 0,
    is_consistent := false,
    empty_cell_text := none }

/-- The `is_empty_column` scan inside `clean_columns`: reads `row[col]` for
each row in order, stopping at the first non-empty cell.  `none` models the
panic of an out-of-bounds `row[col]`. -/
def isEmptyColumn : List Row → Nat → Option Bool
  | [], _ => some true
  | r :: rs, c =>
    match r.get? c with
    | none => none
    | some cell => if cell ≠ "" then some false else isEmptyColumn rs c

/-- The header trim inside `clean_columns`: guarded by `columns.len() > col`,
so it never panics. -/
def trimHeadCol (head : Option Row) (c : Nat) : Option Row :=
  match head with
  | none => none
  | some cs => if c < cs.length then some (cs.take c ++ cs.drop (c + 1)) else some cs

/-- The loop of `clean_columns` (source lines 571-605): `col` is the nominal
index of the `for col in 0..count_columns` loop, `remaining` the number of
iterations left, `deleted` the compensation counter.  Result: rows, header
and the number of deleted columns. -/
def cleanColumnsGo :
    List Row → Option Row → Nat → Nat → Nat → Option (List Row × Option Row × Nat)
  | data, head, deleted, _, 0 => some (data, head, deleted)
  | data, head, deleted, col, rem + 1 =>
    let c := col - deleted
    match isEmptyColumn data c with
    | none => none
    | some false => cleanColumnsGo data head deleted (col + 1) rem
    | some true =>
      match removeColEvery data c with
      | none => none
      | some data2 => cleanColumnsGo data2 (trimHeadCol head c) (deleted + 1) (col + 1) rem

/-- `clean_columns(data, head, count_columns)`. -/
def clean_columns (data : List Row) (head : Option Row) (count : Nat) :
    Option (List Row × Option Row × Nat) :=
  cleanColumnsGo data head 0 0 count

/-- The `is_empty_row` scan inside `clean_rows`: reads `data[r][col]` for
`col` in `0..count`, stopping at the first non-empty cell; with `count = 0`
nothing is read at all. -/
def rowIsEmptyGo (data : List Row) (r : Nat) : Nat → Nat → Option Bool
  | _, 0 => some true
  | col, rem + 1 =>
    match data.get? r with
    | none => none
    | some rw =>
      match rw.get? col with
      | none => none
      | some cell => if cell ≠ "" then some false else rowIsEmptyGo data r (col + 1) rem

/-- `is_empty_row` over the columns `0..count` of row `r`. -/
def rowIsEmpty (data : List Row) (r count : Nat) : Option Bool :=
  rowIsEmptyGo data r 0 count

/-- The same scan on a row value alone (used to state what `clean_rows`
keeps). -/
def rowCheckGo (rw : Row) : Nat → Nat → Option Bool
  | _, 0 => some true
  | col, rem + 1 =>
    match rw.get? col with
    | none => none
    | some cell => if cell ≠ "" then some false else rowCheckGo rw (col + 1) rem

/-- Emptiness scan of a single row over columns `0..count`. -/
def rowCheck (rw : Row) (count : Nat) : Option Bool :=
  rowCheckGo rw 0 count

/-- Rows that `clean_rows` keeps: the scan terminates with `false`. -/
def keepRow (count : Nat) (rw : Row) : Bool :=
  decide (rowCheck rw count = some false)

/-- The loop of `clean_rows` (source lines 607-627). -/
def cleanRowsGo : List Row → Nat → Nat → Nat → Nat → Option (List Row)
  | data, _, _, _, 0 => some data
  | data, count, deleted, row, rem + 1 =>
    let r := row - deleted
    match rowIsEmpty data r count with
    | none => none
    | some false => cleanRowsGo data count deleted (row + 1) rem
    | some true =>
      match vecRemove data r with
      | none => none
      | some data2 => cleanRowsGo data2 count (deleted + 1) (row + 1) rem

/-- `clean_rows(data, count_columns)`; the range `0..data.len()` is fixed at
entry. -/
def clean_rows (data : List Row) (count : Nat) : Option (List Row) :=
  cleanRowsGo data count 0 0 data.length

/-- `Builder::clean` (source lines 269-274): first `clean_columns` (whose
result decrements `count_columns`), then `clean_rows` with the new count. -/
def Builder.clean (b : Builder) : Option Builder :=
  match clean_columns b.data b.columns b.count_columns with
  | none => none
  | some (data2, head2, deleted) =>
    let count2 := b.count_columns - deleted
    match clean_rows data2 count2 with
    | none => none
    | some data3 =>
      some { b with data := data3, columns := head2, count_columns := count2 }

/-- `Bool`-valued form of the shape bound: every stored row and the header
fit inside `count_columns`. -/
def shapeBounded (b : Builder) : Bool :=
  b.data.all (fun r => r.length ≤ b.count_columns) &&
    (match b.columns with
     | none => true
     | some cs => cs.length ≤ b.count_columns)

/-- `Bool`-valued exact-shape predicate: every stored row and the header have
exactly `count_columns` cells. -/
def shapeExact (b : Builder) : Bool :=
  b.data.all (fun r => r.length = b.count_columns) &&
    (match b.columns with
     | none => true
     | some cs => cs.length = b.count_columns)

/-- The shape bound as a proposition: every stored row and the header fit
inside `count_columns`. -/
def ShapeInv (b : Builder) : Prop :=
  (∀ r ∈ b.data, r.length ≤ b.count_columns) ∧
    ∀ cs, b.columns = some cs → cs.length ≤ b.count_columns

/-- Builder states reachable through the public row/column/header operations
(the claim set: default/new, set_header, remove_header, push_record,
insert_record, remove_record, remove_column, push_column, insert_column,
clear, set_default_text).  Partial operations contribute a state only when
they succeed (a panic aborts the program, so no state results).  The `Bool`
index records whether `clear` was ever invoked. -/
inductive ReachF : Bool → Builder → Prop where
  | start : ReachF false Builder.mkDefault
  | set_header (cs : Row) : ReachF u b → ReachF u (b.set_header cs)
  | remove_header : ReachF u b → ReachF u b.remove_header
  | push_record (r : Row) : ReachF u b → ReachF u (b.push_record r)
  | insert_record : ReachF u b → b.insert_record i r = some (b2, ok) → ReachF u b2
  | remove_record : ReachF u b → b.remove_record i = some b2 → ReachF u b2
  | remove_column : ReachF u b → b.remove_column i = some b2 → ReachF u b2
  | push_column (col : List String) : ReachF u b → ReachF u (b.push_column col)
  | insert_column : ReachF u b → b.insert_column col i = some b2 → ReachF u b2
  | clear : ReachF u b → ReachF true b.clear
  | set_default_text (t : String) : ReachF u b → ReachF u (b.set_default_text t)

/-- One step of the record-building scenario of the export claim: a
`push_record`, a `set_header`, or a `set_default_text`. -/
inductive RowOp where
  | push (r : Row)
  | header (h : Row)
  | text (t : String)
deriving DecidableEq

/-- Run a scenario left to right. -/
def runRecOps (b : Builder) : List RowOp → Builder
  | [] => b
  | RowOp.push r :: ops => runRecOps (b.push_record r) ops
  | RowOp.header h :: ops => runRecOps (b.set_header h) ops
  | RowOp.text t :: ops => runRecOps (b.set_default_text t) ops

/-- The width contributed by one scenario step. -/
def recOpSize : RowOp → Nat
  | RowOp.push r => r.length
  | RowOp.header h => h.length
  | RowOp.text _ => 0

/-- The maximum width ever supplied by a scenario (rows and headers). -/
def recOpsMax (ops : List RowOp) : Nat :=
  (ops.map recOpSize).foldr Nat.max 0

/-- A record-conversion implementation (`Tabled` trait of `src/src/tabled.rs`):
`LENGTH`, `fields`, `headers`. -/
structure TabledImpl (α : Type) where
  LEN : Nat
  headers : List String
  fields : α → List String

/-- `impl Tabled for String`: `format!("{}", self)` is the identity,
`stringify!(String)` is `"String"`. -/
def tabledString : TabledImpl String :=
  { LEN := 1, headers := ["String"], fields := fun s => [s] }

/-- `impl Tabled for u8`: the value is modelled as `Nat` (only its decimal
`Display` form is observable); `stringify!(u8)` is `"u8"`. -/
def tabledU8 : TabledImpl Nat :=
  { LEN := 1, headers := ["u8"], fields := fun n => [Nat.repr n] }

/-- `impl Tabled for bool`: `Display` prints `true`/`false`. -/
def tabledBool : TabledImpl Bool :=
  { LEN := 1, headers := ["bool"], fields := fun x => [if x then "true" else "false"] }

/-- `tuple_table! { A }`: the 1-tuple forwards its member. -/
def tabled1 (A : TabledImpl α) : TabledImpl α :=
  { LEN := A.LEN + 0,
    headers := A.headers,
    fields := fun v => A.fields v }

/-- `tuple_table! { A B }`: `LENGTH = A::LENGTH + B::LENGTH + 0`, fields and
headers are appended in member order. -/
def tabled2 (A : TabledImpl α) (B : TabledImpl β) : TabledImpl (α × β) :=
  { LEN := A.LEN + B.LEN + 0,
    headers := A.headers ++ B.headers,
    fields := fun v => A.fields v.1 ++ B.fields v.2 }

/-- `tuple_table! { A B C }`. -/
def tabled3 (A : TabledImpl α) (B : TabledImpl β) (C : TabledImpl γ) :
    TabledImpl (α × β × γ) :=
  { LEN := A.LEN + B.LEN + C.LEN + 0,
    headers := A.headers ++ B.headers ++ C.headers,
    fields := fun v => A.fields v.1 ++ B.fields v.2.1 ++ C.fields v.2.2 }

/-- `tuple_table! { A B C D }`. -/
def tabled4 (A : TabledImpl α) (B : TabledImpl β) (C : TabledImpl γ)
    (D : TabledImpl δ) : TabledImpl (α × β × γ × δ) :=
  { LEN := A.LEN + B.LEN + C.LEN + D.LEN + 0,
    headers := A.headers ++ B.headers ++ C.headers ++ D.headers,
    fields := fun v =>
      A.fields v.1 ++ B.fields v.2.1 ++ C.fields v.2.2.1 ++ D.fields v.2.2.2 }

/-- `tuple_table! { A B C D E }`. -/
def tabled5 (A : TabledImpl α) (B : TabledImpl β) (C : TabledImpl γ)
    (D : TabledImpl δ) (E : TabledImpl ε) : TabledImpl (α × β × γ × δ × ε) :=
  { LEN := A.LEN + B.LEN + C.LEN + D.LEN + E.LEN + 0,
    headers := A.headers ++ B.headers ++ C.headers ++ D.headers ++ E.headers,
    fields := fun v =>
      A.fields v.1 ++ B.fields v.2.1 ++ C.fields v.2.2.1 ++ D.fields v.2.2.2.1
        ++ E.fields v.2.2.2.2 }

/-- `tuple_table! { A B C D E F }`. -/
def tabled6 (A : TabledImpl α) (B : TabledImpl β) (C : TabledImpl γ)
    (D : TabledImpl δ) (E : TabledImpl ε) (F : TabledImpl ζ) :
    TabledImpl (α × β × γ × δ × ε × ζ) :=
  { LEN := A.LEN + B.LEN + C.LEN + D.LEN + E.LEN + F.LEN + 0,
    headers := A.headers ++ B.headers ++ C.headers ++ D.headers ++ E.headers
      ++ F.headers,
    fields := fun v =>
      A.fields v.1 ++ B.fields v.2.1 ++ C.fields v.2.2.1 ++ D.fields v.2.2.2.1
        ++ E.fields v.2.2.2.2.1 ++ F.fields v.2.2.2.2.2 }

/-- Scenario used by concrete witnesses: two pushed records of widths 2 and
1. -/
def demoOps : List RowOp :=
  [RowOp.push ["a", "b"], RowOp.push ["c"]]

/-- A builder on which `clean` runs in bounds (used as a witness input). -/
def demoCleanOk : Builder :=
  { data := [["a"], [""]], columns := none, count_columns := 1,
    is_consistent := false, empty_cell_text := none }

/-- A builder holding a row shorter than `count_columns` on which `clean`
indexes out of bounds. -/
def demoCleanBad : Builder :=
  { data := [[""], []], columns := none, count_columns := 1,
    is_consistent := false, empty_cell_text := none }

section ListHelpers

theorem vecInsert_eq (a : α) :
    ∀ (l : List α) (i : Nat), i ≤ l.length →
      vecInsert l i a = some (l.take i ++ a :: l.drop i) := by
  intro l
  induction l with
  | nil =>
    intro i h
    have : i = 0 := Nat.le_zero.mp h
    subst this
    rfl
  | cons x xs ih =>
    intro i h
    cases i with
    | zero => rfl
    | succ n =>
      have hn : n ≤ xs.length := Nat.succ_le_succ_iff.mp h
      simp [vecInsert, ih n hn]

theorem vecInsert_none (a : α) :
    ∀ (l : List α) (i : Nat), l.length < i → vecInsert l i a = none := by
  intro l
  induction l with
  | nil =>
    intro i h
    cases i with
    | zero => exact absurd h (by simp)
    | succ n => rfl
  | cons x xs ih =>
    intro i h
    cases i with
    | zero => exact absurd h (by simp)
    | succ n =>
      have hn : xs.length < n := Nat.succ_lt_succ_iff.mp h
      simp [vecInsert, ih n hn]

theorem vecRemove_pre (a : α) :
    ∀ (pre post : List α), vecRemove (pre ++ a :: post) pre.length = some (pre ++ post) := by
  intro pre
  induction pre with
  | nil => intro post; rfl
  | cons x xs ih => intro post; simp [vecRemove, ih post]

theorem vecRemove_mem :
    ∀ (l l2 : List α) (i : Nat), vecRemove l i = some l2 → ∀ a ∈ l2, a ∈ l := by
  intro l
  induction l with
  | nil => intro l2 i h; cases h
  | cons x xs ih =>
    intro l2 i h a ha
    cases i with
    | zero =>
      cases h
      exact List.mem_cons_of_mem x ha
    | succ n =>
      simp only [vecRemove, Option.map_eq_some'] at h
      obtain ⟨l3, h3, rfl⟩ := h
      rcases List.mem_cons.mp ha with rfl | hmem
      · exact List.mem_cons_self _ _
      · exact List.mem_cons_of_mem x (ih l3 n h3 a hmem)

theorem vecRemove_length :
    ∀ (l l2 : List α) (i : Nat), vecRemove l i = some l2 → l2.length + 1 = l.length := by
  intro l
  induction l with
  | nil => intro l2 i h; cases h
  | cons x xs ih =>
    intro l2 i h
    cases i with
    | zero => cases h; simp
    | succ n =>
      simp only [vecRemove, Option.map_eq_some'] at h
      obtain ⟨l3, h3, rfl⟩ := h
      simpa using ih l3 n h3

theorem vecRemove_some_of_lt :
    ∀ (l : List α) (i : Nat), i < l.length →
      vecRemove l i = some (l.take i ++ l.drop (i + 1)) := by
  intro l
  induction l with
  | nil => intro i h; exact absurd h (by simp)
  | cons x xs ih =>
    intro i h
    cases i with
    | zero => rfl
    | succ n =>
      have hn : n < xs.length := Nat.succ_lt_succ_iff.mp h
      simp [vecRemove, ih n hn]

theorem vecRemove_get_lt :
    ∀ (l l2 : List α) (i : Nat), vecRemove l i = some l2 →
      ∀ c, c < i → l2.get? c = l.get? c := by
  intro l
  induction l with
  | nil => intro l2 i h; cases h
  | cons x xs ih =>
    intro l2 i h c hc
    cases i with
    | zero => exact absurd hc (by simp)
    | succ n =>
      simp only [vecRemove, Option.map_eq_some'] at h
      obtain ⟨l3, h3, rfl⟩ := h
      cases c with
      | zero => rfl
      | succ m =>
        have hm : m < n := Nat.succ_lt_succ_iff.mp hc
        simpa using ih l3 n h3 m hm

theorem le_foldr_max : ∀ {n : Nat} {l : List Nat}, n ∈ l → n ≤ l.foldr Nat.max 0 := by
  intro n l h
  induction l with
  | nil => cases h
  | cons x xs ih =>
    rcases List.mem_cons.mp h with rfl | hmem
    · exact Nat.le_max_left _ _
    · exact Nat.le_trans (ih hmem) (Nat.le_max_right _ _)

theorem get_append_len (a : α) :
    ∀ (pre post : List α), (pre ++ a :: post).get? pre.length = some a := by
  intro pre
  induction pre with
  | nil => intro post; rfl
  | cons x xs ih => intro post; simpa using ih post

theorem get_some_of_lt :
    ∀ (l : List α) (i : Nat), i < l.length → ∃ x, l.get? i = some x := by
  intro l
  induction l with
  | nil => intro i h; exact absurd h (by simp)
  | cons x xs ih =>
    intro i h
    cases i with
    | zero => exact ⟨x, rfl⟩
    | succ n => simpa using ih n (Nat.succ_lt_succ_iff.mp h)

theorem mem_of_get? : ∀ (l : List α) (i : Nat) (a : α), l.get? i = some a → a ∈ l := by
  intro l
  induction l with
  | nil => intro i a h; cases h
  | cons x xs ih =>
    intro i a h
    cases i with
    | zero => cases h; exact List.mem_cons_self _ _
    | succ n => exact List.mem_cons_of_mem x (ih n a (by simpa using h))

end ListHelpers

section UpdateSize

theorem update_size_data (b : Builder) (n : Nat) : (b.update_size n).data = b.data := by
  unfold Builder.update_size
  dsimp only
  split_ifs <;> rfl

theorem update_size_columns (b : Builder) (n : Nat) :
    (b.update_size n).columns = b.columns := by
  unfold Builder.update_size
  dsimp only
  split_ifs <;> rfl

theorem update_size_text (b : Builder) (n : Nat) :
    (b.update_size n).empty_cell_text = b.empty_cell_text := by
  unfold Builder.update_size
  dsimp only
  split_ifs <;> rfl

theorem update_size_count (b : Builder) (n : Nat) :
    (b.update_size n).count_columns = Nat.max b.count_columns n := by
  unfold Builder.update_size
  dsimp only
  split_ifs <;> simp <;> omega

theorem update_size_flag (b : Builder) (n : Nat) (h : b.is_consistent = false) :
    (b.update_size n).is_consistent = false := by
  unfold Builder.update_size
  dsimp only
  split_ifs <;> simp_all

end UpdateSize

/-- C2, counterexample: on a fresh builder, `insert_record` at the
out-of-range index 1 does not return an error value — it aborts
(`Vec::insert` panics, modelled by `none`), contradicting the claimed
recoverable failure. -/
theorem insert_record_aborts_out_of_range :
    Builder.mkDefault.insert_record 1 ["a"] = none := by
  rfl

/-- C2, amended: `insert_record` returns `some (b2, true)` (always reporting
success) with the row placed at `index` whenever `index ≤ count_records`, and
panics (no return value at all) whenever `index > count_records`. -/
theorem insert_record_spec (b : Builder) (i : Nat) (r : Row) :
    (i ≤ b.data.length →
      ∃ b2, b.insert_record i r = some (b2, true) ∧
        b2.data = b.data.take i ++ r :: b.data.drop i) ∧
    (b.data.length < i → b.insert_record i r = none) := by
  have hrw : b.insert_record i r =
      match vecInsert b.data i r with
      | none => none
      | some d => some ({ b.update_size r.length with data := d }, true) := by
    unfold Builder.insert_record
    dsimp only
    rw [update_size_data]
  constructor
  · intro h
    refine ⟨{ b.update_size r.length with data := b.data.take i ++ r :: b.data.drop i }, ?_, rfl⟩
    rw [hrw, vecInsert_eq r b.data i h]
  · intro h
    rw [hrw, vecInsert_none r b.data i h]

/-- C2, witness: in-range insert at index 0 of a fresh builder succeeds and
stores the row; index 1 aborts. -/
theorem insert_record_spec_witness :
    (∃ b2, Builder.mkDefault.insert_record 0 ["a"] = some (b2, true) ∧
      b2.data = Builder.mkDefault.data.take 0 ++ ["a"] :: Builder.mkDefault.data.drop 0) ∧
    Builder.mkDefault.insert_record 1 ["a"] = none := by
  exact ⟨(insert_record_spec Builder.mkDefault 0 ["a"]).1 (Nat.zero_le _),
    (insert_record_spec Builder.mkDefault 1 ["a"]).2 (by decide)⟩

/-- C3, counterexample: header `["a","b"]`, one record `["x"]`.  The claim
predicts `count_columns = max 1 2 = 2` after `remove_header`, but the code
clears the header before recomputing the size, yielding 1. -/
theorem remove_header_counterexample :
    ((Builder.mkDefault.set_header ["a", "b"]).push_record ["x"]).remove_header.count_columns
      ≠ 2 := by
  decide

/-- C3, amended: `remove_header` drops the header and recomputes
`count_columns` as the maximum stored row length alone (0 when no rows); the
previous header's length is ignored because `columns` is cleared before
`get_size` runs.  No stored row is ever truncated by this. -/
theorem remove_header_spec (b : Builder) :
    b.remove_header.columns = none ∧
    b.remove_header.count_columns = (b.data.map List.length).foldr Nat.max 0 ∧
    ∀ r ∈ b.data, r.length ≤ b.remove_header.count_columns := by
  refine ⟨rfl, ?_, ?_⟩
  · simp [Builder.remove_header, Builder.get_size]
  · intro r hr
    have : r.length ∈ b.data.map List.length := List.mem_map_of_mem List.length hr
    have hle := le_foldr_max this
    simp [Builder.remove_header, Builder.get_size]
    omega

/-- C3, witness: the amended statement evaluated on the counterexample
builder. -/
theorem remove_header_spec_witness :
    ((Builder.mkDefault.set_header ["a", "b"]).push_record ["x"]).remove_header.columns = none ∧
    ((Builder.mkDefault.set_header ["a", "b"]).push_record ["x"]).remove_header.count_columns
        = ((((Builder.mkDefault.set_header ["a", "b"]).push_record ["x"]).data.map
            List.length).foldr Nat.max 0) ∧
    (["x"] : Row).length ≤
      ((Builder.mkDefault.set_header ["a", "b"]).push_record ["x"]).remove_header.count_columns := by
  obtain ⟨h1, h2, h3⟩ := remove_header_spec ((Builder.mkDefault.set_header ["a", "b"]).push_record ["x"])
  exact ⟨h1, h2, h3 ["x"] (by decide)⟩

/-- C8: inserting a record at an in-range index `i` and immediately removing
index `i` restores the stored row sequence exactly. -/
theorem insert_remove_roundtrip (b : Builder) (i : Nat) (r : Row)
    (h : i ≤ b.data.length) :
    ∃ b1 b2, b.insert_record i r = some (b1, true) ∧
      b1.remove_record i = some b2 ∧ b2.data = b.data := by
  obtain ⟨b1, hins, hdata⟩ := (insert_record_spec b i r).1 h
  refine ⟨b1, { b1 with data := b.data }, hins, ?_, rfl⟩
  unfold Builder.remove_record
  have htake : (b.data.take i).length = i := by
    simp [Nat.min_eq_left h]
  have hrem := vecRemove_pre r (b.data.take i) (b.data.drop i)
  rw [htake] at hrem
  rw [hdata, hrem, List.take_append_drop]
  rfl

/-- C8, witness: the roundtrip at index 0 of a fresh builder. -/
theorem insert_remove_roundtrip_witness :
    ∃ b1 b2, Builder.mkDefault.insert_record 0 ["a"] = some (b1, true) ∧
      b1.remove_record 0 = some b2 ∧ b2.data = Builder.mkDefault.data :=
  insert_remove_roundtrip Builder.mkDefault 0 ["a"] (Nat.zero_le _)

/-- C9: for tuples of 2..6 convertible members, `headers`/`fields` are the
member lists concatenated in order and `LENGTH` is the sum of member
lengths; the value `("World", 21u8, true) : (String, u8, bool)` yields
headers `["String","u8","bool"]` and fields `["World","21","true"]`. -/
theorem tuple_tabled_spec :
    (∀ (α : Type) (A : TabledImpl α) (a : α),
      (tabled1 A).headers = A.headers ∧
      (tabled1 A).fields a = A.fields a ∧
      (tabled1 A).LEN = A.LEN) ∧
    (∀ (α β : Type) (A : TabledImpl α) (B : TabledImpl β) (a : α) (b : β),
      (tabled2 A B).headers = A.headers ++ B.headers ∧
      (tabled2 A B).fields (a, b) = A.fields a ++ B.fields b ∧
      (tabled2 A B).LEN = A.LEN + B.LEN) ∧
    (∀ (α β γ : Type) (A : TabledImpl α) (B : TabledImpl β) (C : TabledImpl γ)
      (a : α) (b : β) (c : γ),
      (tabled3 A B C).headers = A.headers ++ B.headers ++ C.headers ∧
      (tabled3 A B C).fields (a, b, c) = A.fields a ++ B.fields b ++ C.fields c ∧
      (tabled3 A B C).LEN = A.LEN + B.LEN + C.LEN) ∧
    (∀ (α β γ δ : Type) (A : TabledImpl α) (B : TabledImpl β) (C : TabledImpl γ)
      (D : TabledImpl δ) (a : α) (b : β) (c : γ) (d : δ),
      (tabled4 A B C D).headers = A.headers ++ B.headers ++ C.headers ++ D.headers ∧
      (tabled4 A B C D).fields (a, b, c, d)
        = A.fields a ++ B.fields b ++ C.fields c ++ D.fields d ∧
      (tabled4 A B C D).LEN = A.LEN + B.LEN + C.LEN + D.LEN) ∧
    (∀ (α β γ δ ε : Type) (A : TabledImpl α) (B : TabledImpl β) (C : TabledImpl γ)
      (D : TabledImpl δ) (E : TabledImpl ε) (a : α) (b : β) (c : γ) (d : δ) (e : ε),
      (tabled5 A B C D E).headers
        = A.headers ++ B.headers ++ C.headers ++ D.headers ++ E.headers ∧
      (tabled5 A B C D E).fields (a, b, c, d, e)
        = A.fields a ++ B.fields b ++ C.fields c ++ D.fields d ++ E.fields e ∧
      (tabled5 A B C D E).LEN = A.LEN + B.LEN + C.LEN + D.LEN + E.LEN) ∧
    (∀ (α β γ δ ε ζ : Type) (A : TabledImpl α) (B : TabledImpl β) (C : TabledImpl γ)
      (D : TabledImpl δ) (E : TabledImpl ε) (F : TabledImpl ζ)
      (a : α) (b : β) (c : γ) (d : δ) (e : ε) (f : ζ),
      (tabled6 A B C D E F).headers
        = A.headers ++ B.headers ++ C.headers ++ D.headers ++ E.headers ++ F.headers ∧
      (tabled6 A B C D E F).fields (a, b, c, d, e, f)
        = A.fields a ++ B.fields b ++ C.fields c ++ D.fields d ++ E.fields e ++ F.fields f ∧
      (tabled6 A B C D E F).LEN = A.LEN + B.LEN + C.LEN + D.LEN + E.LEN + F.LEN) ∧
    ((tabled3 tabledString tabledU8 tabledBool).headers = ["String", "u8", "bool"] ∧
      (tabled3 tabledString tabledU8 tabledBool).fields ("World", 21, true)
        = ["World", "21", "true"] ∧
      (tabled3 tabledString tabledU8 tabledBool).LEN = 3) := by
  refine ⟨?_, ?_, ?_, ?_, ?_, ?_, ?_, ?_, ?_⟩ <;>
    first
      | (intros; exact ⟨rfl, rfl, rfl⟩)
      | rfl

/-- C4, counterexample: the `is_consistent` flag is not equivalent to the
shape condition in either direction.  A fresh builder is trivially
shape-consistent yet carries `is_consistent = false` (the derived `Default`);
and after `set_header(["a","b","c"])`, `clear()`, `push_record(["x"])` the
flag is `true` while the stored row has 1 cell against `count_columns = 3`. -/
theorem flag_not_iff_counterexample :
    (Builder.mkDefault.is_consistent = false ∧ shapeExact Builder.mkDefault = true) ∧
    (((Builder.mkDefault.set_header ["a", "b", "c"]).clear.push_record ["x"]).is_consistent
        = true ∧
      shapeExact ((Builder.mkDefault.set_header ["a", "b", "c"]).clear.push_record ["x"])
        = false) := by
  decide

/-- C5, counterexample: with rows `["a","b"]` and `["c"]` (jagged,
`count_columns = 2`), `remove_column(1)` does not normalize first and indexes
the short row out of bounds — it panics (modelled `none`) even though
`1 < count_columns`. -/
theorem remove_column_counterexample :
    1 < ((Builder.mkDefault.push_record ["a", "b"]).push_record ["c"]).count_columns ∧
    ((Builder.mkDefault.push_record ["a", "b"]).push_record ["c"]).remove_column 1 = none := by
  decide

/-- C6, counterexample: `From<Vec<Vec<String>>>` takes `count_columns` from
the first row only, so the builder it returns stores a row strictly wider
than `count_columns`. -/
theorem fromRows_counterexample :
    ∃ r ∈ (Builder.fromRows [["a"], ["b", "c"]]).data,
      (Builder.fromRows [["a"], ["b", "c"]]).count_columns < r.length := by
  decide

section ShapeInvariant

theorem nat_max_ite (a b : Nat) : Nat.max a b = if a ≤ b then b else a := by
  have hd : Nat.max a b = a ⊔ b := rfl
  rw [hd, Nat.max_def]

theorem nat_min_ite (a b : Nat) : Nat.min a b = if a ≤ b then a else b := by
  have hd : Nat.min a b = a ⊓ b := rfl
  rw [hd, Nat.min_def]

theorem padTo_length (c : Nat) (f : String) (r : Row) :
    (padTo c f r).length = Nat.max r.length c := by
  unfold padTo
  rw [nat_max_ite]
  split_ifs with h1 h2
  · simp only [List.length_append, List.length_replicate]
    omega
  · simp only [List.length_append, List.length_replicate]
    omega
  · omega
  · rfl

theorem vecInsert_length (a : α) :
    ∀ (l l2 : List α) (i : Nat), vecInsert l i a = some l2 → l2.length = l.length + 1 := by
  intro l
  induction l with
  | nil =>
    intro l2 i h
    cases i with
    | zero => cases h; rfl
    | succ n => cases h
  | cons x xs ih =>
    intro l2 i h
    cases i with
    | zero => cases h; rfl
    | succ n =>
      simp only [vecInsert, Option.map_eq_some'] at h
      obtain ⟨l3, h3, rfl⟩ := h
      simpa using ih l3 n h3

theorem vecInsert_mem (a : α) :
    ∀ (l l2 : List α) (i : Nat), vecInsert l i a = some l2 →
      ∀ x ∈ l2, x ∈ l ∨ x = a := by
  intro l
  induction l with
  | nil =>
    intro l2 i h x hx
    cases i with
    | zero =>
      cases h
      right
      simpa using hx
    | succ n => cases h
  | cons y ys ih =>
    intro l2 i h x hx
    cases i with
    | zero =>
      cases h
      rcases List.mem_cons.mp hx with rfl | hx2
      · right; rfl
      · left; exact hx2
    | succ n =>
      simp only [vecInsert, Option.map_eq_some'] at h
      obtain ⟨l3, h3, rfl⟩ := h
      rcases List.mem_cons.mp hx with rfl | hx2
      · left; exact List.mem_cons_self _ _
      · rcases ih l3 n h3 x hx2 with hm | rfl
        · left; exact List.mem_cons_of_mem y hm
        · right; rfl

theorem padZipPush_mem :
    ∀ (data : List Row) (cs : List String) (x2 : Row), x2 ∈ padZipPush data cs →
      ∃ x ∈ data, x2.length = x.length + 1 := by
  intro data
  induction data with
  | nil =>
    intro cs x2 h
    cases cs <;> simp [padZipPush] at h
  | cons r rs ih =>
    intro cs x2 h
    cases cs with
    | nil =>
      rcases List.mem_cons.mp h with rfl | h2
      · exact ⟨r, List.mem_cons_self _ _, by simp⟩
      · obtain ⟨x, hx, hlen⟩ := ih [] x2 h2
        exact ⟨x, List.mem_cons_of_mem r hx, hlen⟩
    | cons c cs2 =>
      rcases List.mem_cons.mp h with rfl | h2
      · exact ⟨r, List.mem_cons_self _ _, by simp⟩
      · obtain ⟨x, hx, hlen⟩ := ih cs2 x2 h2
        exact ⟨x, List.mem_cons_of_mem r hx, hlen⟩

theorem padZipInsert_mem :
    ∀ (data : List Row) (cs : List String) (i : Nat) (d2 : List Row),
      padZipInsert data cs i = some d2 →
      ∀ x2 ∈ d2, ∃ x ∈ data, x2.length = x.length + 1 := by
  intro data
  induction data with
  | nil =>
    intro cs i d2 h x2 hx2
    cases cs <;> simp [padZipInsert] at h <;> subst h <;> cases hx2
  | cons r rs ih =>
    intro cs i d2 h x2 hx2
    cases cs with
    | nil =>
      simp only [padZipInsert] at h
      cases hv : vecInsert r i "" with
      | none => rw [hv] at h; cases h
      | some r2 =>
        rw [hv] at h
        cases hrest : padZipInsert rs [] i with
        | none => rw [hrest] at h; cases h
        | some rs2 =>
          rw [hrest] at h
          cases h
          rcases List.mem_cons.mp hx2 with rfl | h2
          · exact ⟨r, List.mem_cons_self _ _, vecInsert_length _ r x2 i hv⟩
          · obtain ⟨x, hx, hlen⟩ := ih [] i rs2 hrest x2 h2
            exact ⟨x, List.mem_cons_of_mem r hx, hlen⟩
    | cons c cs2 =>
      simp only [padZipInsert] at h
      cases hv : vecInsert r i c with
      | none => rw [hv] at h; cases h
      | some r2 =>
        rw [hv] at h
        cases hrest : padZipInsert rs cs2 i with
        | none => rw [hrest] at h; cases h
        | some rs2 =>
          rw [hrest] at h
          cases h
          rcases List.mem_cons.mp hx2 with rfl | h2
          · exact ⟨r, List.mem_cons_self _ _, vecInsert_length _ r x2 i hv⟩
          · obtain ⟨x, hx, hlen⟩ := ih cs2 i rs2 hrest x2 h2
            exact ⟨x, List.mem_cons_of_mem r hx, hlen⟩

theorem removeColEvery_mem_length :
    ∀ (data : List Row) (i : Nat) (d2 : List Row),
      removeColEvery data i = some d2 →
      ∀ x2 ∈ d2, ∃ x ∈ data, x2.length + 1 = x.length := by
  intro data
  induction data with
  | nil =>
    intro i d2 h x2 hx2
    cases h
    cases hx2
  | cons r rs ih =>
    intro i d2 h x2 hx2
    simp only [removeColEvery] at h
    cases hv : vecRemove r i with
    | none => rw [hv] at h; cases h
    | some r2 =>
      rw [hv] at h
      cases hrest : removeColEvery rs i with
      | none => rw [hrest] at h; cases h
      | some rs2 =>
        rw [hrest] at h
        cases h
        rcases List.mem_cons.mp hx2 with rfl | h2
        · exact ⟨r, List.mem_cons_self _ _, vecRemove_length r x2 i hv⟩
        · obtain ⟨x, hx, hlen⟩ := ih i rs2 hrest x2 h2
          exact ⟨x, List.mem_cons_of_mem r hx, hlen⟩

theorem shapeBounded_iff (b : Builder) : shapeBounded b = true ↔ ShapeInv b := by
  unfold shapeBounded ShapeInv
  cases hc : b.columns <;> simp [List.all_eq_true]

theorem update_size_shape (b : Builder) (n : Nat) (h : ShapeInv b) :
    ShapeInv (b.update_size n) := by
  obtain ⟨hd, hc⟩ := h
  unfold ShapeInv
  rw [update_size_data, update_size_columns, update_size_count]
  constructor
  · intro r hr
    exact Nat.le_trans (hd r hr) (Nat.le_max_left _ _)
  · intro cs hcs
    exact Nat.le_trans (hc cs hcs) (Nat.le_max_left _ _)

theorem set_header_shape (b : Builder) (cs : Row) (h : ShapeInv b) :
    ShapeInv (b.set_header cs) := by
  obtain ⟨hd, hc⟩ := update_size_shape b cs.length h
  constructor
  · intro r hr
    simp only [Builder.set_header] at hr ⊢
    exact hd r hr
  · intro cs2 hcs2
    simp only [Builder.set_header] at hcs2 ⊢
    cases hcs2
    rw [update_size_count]
    exact Nat.le_max_right _ _

theorem remove_header_shape (b : Builder) : ShapeInv b.remove_header := by
  obtain ⟨h1, h2, h3⟩ := remove_header_spec b
  constructor
  · intro r hr
    simp only [Builder.remove_header] at hr
    exact h3 r hr
  · intro cs hcs
    rw [h1] at hcs
    cases hcs

theorem push_record_shape (b : Builder) (r : Row) (h : ShapeInv b) :
    ShapeInv (b.push_record r) := by
  obtain ⟨hd, hc⟩ := update_size_shape b r.length h
  constructor
  · intro r2 hr2
    simp only [Builder.push_record, List.mem_append, List.mem_singleton] at hr2
    rcases hr2 with hr2 | rfl
    · exact hd r2 hr2
    · simp only [Builder.push_record, update_size_count]
      exact Nat.le_max_right _ _
  · intro cs hcs
    simp only [Builder.push_record] at hcs ⊢
    exact hc cs hcs

theorem insert_record_shape (b : Builder) (i : Nat) (r : Row) (b2 : Builder)
    (ok : Bool) (heq : b.insert_record i r = some (b2, ok)) (h : ShapeInv b) :
    ShapeInv b2 := by
  obtain ⟨hd, hc⟩ := update_size_shape b r.length h
  have hrw : b.insert_record i r =
      match vecInsert b.data i r with
      | none => none
      | some d => some ({ b.update_size r.length with data := d }, true) := by
    unfold Builder.insert_record
    dsimp only
    rw [update_size_data]
  rw [hrw] at heq
  cases hv : vecInsert b.data i r with
  | none => rw [hv] at heq; cases heq
  | some d =>
    rw [hv] at heq
    cases heq
    constructor
    · intro r2 hr2
      simp only at hr2
      rcases vecInsert_mem r b.data d i hv r2 hr2 with hm | rfl
      · have := hd r2 (by rwa [update_size_data])
        simpa using this
      · simp only [update_size_count]
        exact Nat.le_max_right _ _
    · intro cs hcs
      exact hc cs hcs

theorem remove_record_shape (b : Builder) (i : Nat) (b2 : Builder)
    (heq : b.remove_record i = some b2) (h : ShapeInv b) : ShapeInv b2 := by
  unfold Builder.remove_record at heq
  cases hv : vecRemove b.data i with
  | none => rw [hv] at heq; cases heq
  | some d =>
    rw [hv] at heq
    cases heq
    exact ⟨fun r2 hr2 => h.1 r2 (vecRemove_mem b.data d i hv r2 hr2), h.2⟩

theorem remove_column_shape (b : Builder) (i : Nat) (b2 : Builder)
    (heq : b.remove_column i = some b2) (h : ShapeInv b) : ShapeInv b2 := by
  unfold Builder.remove_column at heq
  cases hcol : b.columns with
  | none =>
    rw [hcol] at heq
    dsimp only at heq
    cases hdv : removeColEvery b.data i with
    | none => rw [hdv] at heq; cases heq
    | some d2 =>
      rw [hdv] at heq
      cases hcount : b.count_columns with
      | zero => rw [hcount] at heq; cases heq
      | succ n =>
        rw [hcount] at heq
        cases heq
        constructor
        · intro r2 hr2
          obtain ⟨x, hx, hlen⟩ := removeColEvery_mem_length b.data i d2 hdv r2 hr2
          have hxl := h.1 x hx
          simp only at hr2 ⊢
          omega
        · intro cs hcs
          cases hcs
  | some cs =>
    rw [hcol] at heq
    dsimp only at heq
    cases hcv : vecRemove cs i with
    | none => rw [hcv] at heq; cases heq
    | some cs2 =>
      rw [hcv] at heq
      cases hdv : removeColEvery b.data i with
      | none => rw [hdv] at heq; cases heq
      | some d2 =>
        rw [hdv] at heq
        cases hcount : b.count_columns with
        | zero => rw [hcount] at heq; cases heq
        | succ n =>
          rw [hcount] at heq
          cases heq
          constructor
          · intro r2 hr2
            obtain ⟨x, hx, hlen⟩ := removeColEvery_mem_length b.data i d2 hdv r2 hr2
            have hxl := h.1 x hx
            simp only at hr2 ⊢
            omega
          · intro cs3 hcs3
            simp only at hcs3
            cases hcs3
            have h1 := vecRemove_length cs cs2 i hcv
            have h2 := h.2 cs hcol
            show List.length cs2 ≤ n
            omega

theorem fit_shape (b : Builder) (h : ShapeInv b) : ShapeInv b.fit_rows_length := by
  constructor
  · intro r hr
    simp only [Builder.fit_rows_length, List.mem_map] at hr
    obtain ⟨x, hx, rfl⟩ := hr
    have hxl := h.1 x hx
    simp only [Builder.fit_rows_length, padTo_length]
    rw [nat_max_ite]
    split_ifs
    all_goals omega
  · intro cs hcs
    simp only [Builder.fit_rows_length] at hcs ⊢
    cases hcol : b.columns with
    | none => rw [hcol] at hcs; cases hcs
    | some cs0 =>
      rw [hcol] at hcs
      cases hcs
      have hxl := h.2 cs0 hcol
      rw [padTo_length, nat_max_ite]
      split_ifs
      all_goals omega

theorem push_column_shape (b : Builder) (col : List String) (h : ShapeInv b) :
    ShapeInv (b.push_column col) := by
  have hbfinv : ShapeInv (if b.is_consistent then b else b.fit_rows_length) := by
    split_ifs
    · exact h
    · exact fit_shape b h
  unfold Builder.push_column
  dsimp only
  set bf := if b.is_consistent then b else b.fit_rows_length with hbf
  cases hcol : bf.columns with
  | none =>
    constructor
    · intro r2 hr2
      simp only at hr2 ⊢
      obtain ⟨x, hx, hlen⟩ := padZipPush_mem bf.data col r2 hr2
      have := hbfinv.1 x hx
      omega
    · intro cs hcs
      simp only at hcs
      cases hcs
  | some cs =>
    constructor
    · intro r2 hr2
      simp only at hr2 ⊢
      obtain ⟨x, hx, hlen⟩ := padZipPush_mem bf.data col.tail r2 hr2
      have := hbfinv.1 x hx
      omega
    · intro cs2 hcs2
      simp only at hcs2 ⊢
      cases hcs2
      have := hbfinv.2 cs hcol
      simp only [List.length_append, List.length_singleton]
      omega

theorem insert_column_shape (b : Builder) (col : List String) (i : Nat)
    (b2 : Builder) (heq : b.insert_column col i = some b2) (h : ShapeInv b) :
    ShapeInv b2 := by
  have hbfinv : ShapeInv (if b.is_consistent then b else b.fit_rows_length) := by
    split_ifs
    · exact h
    · exact fit_shape b h
  unfold Builder.insert_column at heq
  dsimp only at heq
  set bf := if b.is_consistent then b else b.fit_rows_length with hbf
  cases hcol : bf.columns with
  | none =>
    rw [hcol] at heq
    dsimp only at heq
    cases hdv : padZipInsert bf.data col i with
    | none => rw [hdv] at heq; cases heq
    | some d2 =>
      rw [hdv] at heq
      cases heq
      constructor
      · intro r2 hr2
        simp only at hr2 ⊢
        obtain ⟨x, hx, hlen⟩ := padZipInsert_mem bf.data col i d2 hdv r2 hr2
        have := hbfinv.1 x hx
        omega
      · intro cs hcs
        simp only at hcs
        cases hcs
  | some cs =>
    rw [hcol] at heq
    dsimp only at heq
    cases hcv : vecInsert cs i (col.headD "") with
    | none => rw [hcv] at heq; cases heq
    | some cs2 =>
      rw [hcv] at heq
      cases hdv : padZipInsert bf.data col.tail i with
      | none => rw [hdv] at heq; cases heq
      | some d2 =>
        rw [hdv] at heq
        cases heq
        constructor
        · intro r2 hr2
          simp only at hr2 ⊢
          obtain ⟨x, hx, hlen⟩ := padZipInsert_mem bf.data col.tail i d2 hdv r2 hr2
          have := hbfinv.1 x hx
          omega
        · intro cs3 hcs3
          simp only at hcs3 ⊢
          cases hcs3
          have h1 := vecInsert_length (col.headD "") cs cs2 i hcv
          have h2 := hbfinv.2 cs hcol
          omega

theorem clear_shape (b : Builder) : ShapeInv b.clear := by
  constructor
  · intro r hr
    simp [Builder.clear] at hr
  · intro cs hcs
    simp only [Builder.clear] at hcs ⊢
    cases hcol : b.columns with
    | none =>
      rw [hcol] at hcs
      cases hcs
    | some cs0 =>
      rw [hcol] at hcs
      cases hcs
      simp

theorem set_default_text_shape (b : Builder) (t : String) (h : ShapeInv b) :
    ShapeInv (b.set_default_text t) := h

/-- C6, amended: over all builder states reachable through the public
operations default/new, set_header, remove_header, push_record,
insert_record, remove_record, remove_column, push_column, insert_column,
clear, set_default_text — but excluding `From<Vec<Vec<String>>>` and
`hint_column_size`, which do not validate — no stored row and no header is
longer than `count_columns`. -/
theorem reach_shapeBounded (u : Bool) (b : Builder) (h : ReachF u b) :
    shapeBounded b = true := by
  rw [shapeBounded_iff]
  induction h with
  | start =>
    constructor
    · intro r hr
      cases hr
    · intro cs hcs
      cases hcs
  | set_header cs hb ih => exact set_header_shape _ cs ih
  | remove_header hb ih => exact remove_header_shape _
  | push_record r hb ih => exact push_record_shape _ r ih
  | insert_record hb heq ih => exact insert_record_shape _ _ _ _ _ heq ih
  | remove_record hb heq ih => exact remove_record_shape _ _ _ heq ih
  | remove_column hb heq ih => exact remove_column_shape _ _ _ heq ih
  | push_column col hb ih => exact push_column_shape _ col ih
  | insert_column hb heq ih => exact insert_column_shape _ _ _ _ heq ih
  | clear hb ih => exact clear_shape _
  | set_default_text t hb ih => exact set_default_text_shape _ t ih

/-- C6, witness: a concrete reachable state (two pushed records of widths 2
and 1) satisfies the bound. -/
theorem reach_shapeBounded_witness :
    shapeBounded ((Builder.mkDefault.push_record ["a", "b"]).push_record ["c"]) = true :=
  reach_shapeBounded false _
    (ReachF.push_record ["c"] (ReachF.push_record ["a", "b"] ReachF.start))

end ShapeInvariant

section FlagConservative

theorem set_header_flag (b : Builder) (cs : Row) (h : b.is_consistent = false) :
    (b.set_header cs).is_consistent = false := by
  simp only [Builder.set_header]
  exact update_size_flag b cs.length h

theorem remove_header_flag (b : Builder) :
    b.remove_header.is_consistent = b.is_consistent := rfl

theorem push_record_flag (b : Builder) (r : Row) (h : b.is_consistent = false) :
    (b.push_record r).is_consistent = false := by
  simp only [Builder.push_record]
  exact update_size_flag b r.length h

theorem insert_record_flag (b : Builder) (i : Nat) (r : Row) (b2 : Builder)
    (ok : Bool) (heq : b.insert_record i r = some (b2, ok))
    (h : b.is_consistent = false) : b2.is_consistent = false := by
  have hrw : b.insert_record i r =
      match vecInsert b.data i r with
      | none => none
      | some d => some ({ b.update_size r.length with data := d }, true) := by
    unfold Builder.insert_record
    dsimp only
    rw [update_size_data]
  rw [hrw] at heq
  cases hv : vecInsert b.data i r with
  | none => rw [hv] at heq; cases heq
  | some d =>
    rw [hv] at heq
    cases heq
    exact update_size_flag b r.length h

theorem remove_record_flag (b : Builder) (i : Nat) (b2 : Builder)
    (heq : b.remove_record i = some b2) : b2.is_consistent = b.is_consistent := by
  unfold Builder.remove_record at heq
  cases hv : vecRemove b.data i with
  | none => rw [hv] at heq; cases heq
  | some d =>
    rw [hv] at heq
    cases heq
    rfl

theorem remove_column_flag (b : Builder) (i : Nat) (b2 : Builder)
    (heq : b.remove_column i = some b2) : b2.is_consistent = b.is_consistent := by
  unfold Builder.remove_column at heq
  cases hcol : b.columns with
  | none =>
    rw [hcol] at heq
    dsimp only at heq
    cases hdv : removeColEvery b.data i with
    | none => rw [hdv] at heq; cases heq
    | some d2 =>
      rw [hdv] at heq
      cases hcount : b.count_columns with
      | zero => rw [hcount] at heq; cases heq
      | succ n =>
        rw [hcount] at heq
        cases heq
        rfl
  | some cs =>
    rw [hcol] at heq
    dsimp only at heq
    cases hcv : vecRemove cs i with
    | none => rw [hcv] at heq; cases heq
    | some cs2 =>
      rw [hcv] at heq
      cases hdv : removeColEvery b.data i with
      | none => rw [hdv] at heq; cases heq
      | some d2 =>
        rw [hdv] at heq
        cases hcount : b.count_columns with
        | zero => rw [hcount] at heq; cases heq
        | succ n =>
          rw [hcount] at heq
          cases heq
          rfl

theorem fit_flag (b : Builder) :
    b.fit_rows_length.is_consistent = b.is_consistent := rfl

theorem push_column_flag (b : Builder) (col : List String) :
    (b.push_column col).is_consistent = b.is_consistent := by
  unfold Builder.push_column
  dsimp only
  set bf := if b.is_consistent then b else b.fit_rows_length with hbf
  have hf : bf.is_consistent = b.is_consistent := by
    rw [hbf]
    split_ifs <;> rfl
  cases hcol : bf.columns with
  | none => exact hf
  | some cs => exact hf

theorem insert_column_flag (b : Builder) (col : List String) (i : Nat)
    (b2 : Builder) (heq : b.insert_column col i = some b2) :
    b2.is_consistent = b.is_consistent := by
  unfold Builder.insert_column at heq
  dsimp only at heq
  set bf := if b.is_consistent then b else b.fit_rows_length with hbf
  have hf : bf.is_consistent = b.is_consistent := by
    rw [hbf]
    split_ifs <;> rfl
  cases hcol : bf.columns with
  | none =>
    rw [hcol] at heq
    dsimp only at heq
    cases hdv : padZipInsert bf.data col i with
    | none => rw [hdv] at heq; cases heq
    | some d2 =>
      rw [hdv] at heq
      cases heq
      exact hf
  | some cs =>
    rw [hcol] at heq
    dsimp only at heq
    cases hcv : vecInsert cs i (col.headD "") with
    | none => rw [hcv] at heq; cases heq
    | some cs2 =>
      rw [hcv] at heq
      cases hdv : padZipInsert bf.data col.tail i with
      | none => rw [hdv] at heq; cases heq
      | some d2 =>
        rw [hdv] at heq
        cases heq
        exact hf

/-- C4, amended: the flag is a conservative dirty-marker, not an exact
consistency indicator.  Along the claim's listed operations, only `clear()`
(and the excluded `hint_column_size`) ever set `is_consistent` to `true`: in
every state reachable without `clear`, the flag is `false` — even when every
row has exactly `count_columns` cells — so the claimed equivalence does not
hold in either direction. -/
theorem reach_flag_false (b : Builder) (h : ReachF false b) :
    b.is_consistent = false := by
  suffices haux : ∀ (u : Bool) (b2 : Builder), ReachF u b2 →
      u = true ∨ b2.is_consistent = false by
    rcases haux false b h with h1 | h2
    · cases h1
    · exact h2
  intro u b2 h2
  induction h2 with
  | start => right; rfl
  | set_header cs hb ih =>
    rcases ih with h1 | h2
    · left; exact h1
    · right; exact set_header_flag _ cs h2
  | remove_header hb ih =>
    rcases ih with h1 | h2
    · left; exact h1
    · right; rw [remove_header_flag]; exact h2
  | push_record r hb ih =>
    rcases ih with h1 | h2
    · left; exact h1
    · right; exact push_record_flag _ r h2
  | insert_record hb heq ih =>
    rcases ih with h1 | h2
    · left; exact h1
    · right; exact insert_record_flag _ _ _ _ _ heq h2
  | remove_record hb heq ih =>
    rcases ih with h1 | h2
    · left; exact h1
    · right; rw [remove_record_flag _ _ _ heq]; exact h2
  | remove_column hb heq ih =>
    rcases ih with h1 | h2
    · left; exact h1
    · right; rw [remove_column_flag _ _ _ heq]; exact h2
  | push_column col hb ih =>
    rcases ih with h1 | h2
    · left; exact h1
    · right; rw [push_column_flag]; exact h2
  | insert_column hb heq ih =>
    rcases ih with h1 | h2
    · left; exact h1
    · right; rw [insert_column_flag _ _ _ _ heq]; exact h2
  | clear hb ih => left; rfl
  | set_default_text t hb ih =>
    rcases ih with h1 | h2
    · left; exact h1
    · right; exact h2

/-- C4, witness: a concrete clear-free reachable state carries a false
flag. -/
theorem reach_flag_false_witness :
    ((Builder.mkDefault.set_header ["a", "b", "c"]).push_record ["x"]).is_consistent
      = false :=
  reach_flag_false _
    (ReachF.push_record ["x"] (ReachF.set_header ["a", "b", "c"] ReachF.start))

end FlagConservative

section ColumnOps

theorem removeColEvery_eq :
    ∀ (data : List Row) (i : Nat), (∀ r ∈ data, i < r.length) →
      removeColEvery data i
        = some (data.map (fun r => r.take i ++ r.drop (i + 1))) := by
  intro data
  induction data with
  | nil => intro i h; rfl
  | cons r rs ih =>
    intro i h
    have hr := h r (List.mem_cons_self _ _)
    have hrest := ih i (fun x hx => h x (List.mem_cons_of_mem r hx))
    simp only [removeColEvery, vecRemove_some_of_lt r i hr, hrest, List.map_cons]

theorem padZipInsert_isSome :
    ∀ (data : List Row) (cells : List String) (i : Nat),
      (∀ r ∈ data, i ≤ r.length) →
      ∃ d2, padZipInsert data cells i = some d2 := by
  intro data
  induction data with
  | nil => intro cells i h; cases cells <;> exact ⟨[], rfl⟩
  | cons r rs ih =>
    intro cells i h
    have hr := h r (List.mem_cons_self _ _)
    cases cells with
    | nil =>
      obtain ⟨rs2, hrs2⟩ := ih [] i (fun x hx => h x (List.mem_cons_of_mem r hx))
      exact ⟨(r.take i ++ "" :: r.drop i) :: rs2,
        by simp only [padZipInsert, vecInsert_eq "" r i hr, hrs2]⟩
    | cons c cs =>
      obtain ⟨rs2, hrs2⟩ := ih cs i (fun x hx => h x (List.mem_cons_of_mem r hx))
      exact ⟨(r.take i ++ c :: r.drop i) :: rs2,
        by simp only [padZipInsert, vecInsert_eq c r i hr, hrs2]⟩

/-- C5, amended: `push_column` and `insert_column` normalize first when the
flag is `false`, so at row-touching time every row has exactly
`count_columns` cells; `remove_column` does NOT normalize, so its
precondition is not `index < count_columns` but `index` being in bounds for
the header and every individual row — under that stronger precondition (which
`index < count_columns` implies only for shape-consistent builders) it
removes one cell from the header and every row and decrements
`count_columns`.  Part three: on a flag-false builder, `insert_column` at any
index within `count_columns` (and within the header, which normalization
does not lengthen beyond its own width) succeeds and leaves every stored row
with exactly `count_columns + 1` cells. -/
theorem column_ops_spec :
    (∀ (b : Builder) (i : Nat),
      (∀ r ∈ b.data, i < r.length) →
      (∀ cs, b.columns = some cs → i < cs.length) →
      i < b.count_columns →
      b.remove_column i
        = some { b with
            columns := b.columns.map (fun cs => cs.take i ++ cs.drop (i + 1)),
            data := b.data.map (fun r => r.take i ++ r.drop (i + 1)),
            count_columns := b.count_columns - 1 }) ∧
    (∀ (b : Builder) (col : List String),
      b.is_consistent = false →
      (∀ r ∈ b.data, r.length ≤ b.count_columns) →
      (b.push_column col).count_columns = b.count_columns + 1 ∧
      ∀ r ∈ (b.push_column col).data, r.length = b.count_columns + 1) ∧
    (∀ (b : Builder) (col : List String) (i : Nat),
      b.is_consistent = false →
      (∀ r ∈ b.data, r.length ≤ b.count_columns) →
      (∀ cs, b.columns = some cs → i ≤ cs.length) →
      i ≤ b.count_columns →
      ∃ b2, b.insert_column col i = some b2 ∧
        b2.count_columns = b.count_columns + 1 ∧
        ∀ r ∈ b2.data, r.length = b.count_columns + 1) := by
  refine ⟨?_, ?_, ?_⟩
  · intro b i hrows hcs hcount
    unfold Builder.remove_column
    cases hcol : b.columns with
    | none =>
      rw [removeColEvery_eq b.data i hrows]
      cases hc : b.count_columns with
      | zero => omega
      | succ n => simp
    | some cs =>
      have hlen := hcs cs hcol
      dsimp only
      rw [vecRemove_some_of_lt cs i hlen, removeColEvery_eq b.data i hrows]
      cases hc : b.count_columns with
      | zero => omega
      | succ n => simp
  · intro b col hflag hrows
    have hfitrows : ∀ r ∈ b.fit_rows_length.data, r.length = b.count_columns := by
      intro r hr
      simp only [Builder.fit_rows_length, List.mem_map] at hr
      obtain ⟨x, hx, rfl⟩ := hr
      have := hrows x hx
      rw [padTo_length, nat_max_ite]
      split_ifs
      all_goals omega
    have hif : (if b.is_consistent then b else b.fit_rows_length) = b.fit_rows_length := by
      rw [hflag]
      rfl
    unfold Builder.push_column
    dsimp only
    rw [hif]
    cases hcol : b.fit_rows_length.columns with
    | none =>
      constructor
      · rfl
      · intro r2 hr2
        simp only at hr2 ⊢
        obtain ⟨x, hx, hlen⟩ := padZipPush_mem b.fit_rows_length.data col r2 hr2
        rw [hlen, hfitrows x hx]
    | some cs =>
      constructor
      · rfl
      · intro r2 hr2
        simp only at hr2 ⊢
        obtain ⟨x, hx, hlen⟩ := padZipPush_mem b.fit_rows_length.data col.tail r2 hr2
        rw [hlen, hfitrows x hx]
  · intro b col i hflag hrows hcs hi
    have hfitrows : ∀ r ∈ b.fit_rows_length.data, r.length = b.count_columns := by
      intro r hr
      simp only [Builder.fit_rows_length, List.mem_map] at hr
      obtain ⟨x, hx, rfl⟩ := hr
      have := hrows x hx
      rw [padTo_length, nat_max_ite]
      split_ifs
      all_goals omega
    have hif : (if b.is_consistent then b else b.fit_rows_length) = b.fit_rows_length := by
      rw [hflag]
      rfl
    unfold Builder.insert_column
    dsimp only
    rw [hif]
    cases hcol : b.fit_rows_length.columns with
    | none =>
      obtain ⟨d2, hd2⟩ := padZipInsert_isSome b.fit_rows_length.data col i
        (fun r hr => by rw [hfitrows r hr]; exact hi)
      rw [hd2]
      refine ⟨_, rfl, rfl, ?_⟩
      intro r2 hr2
      simp only at hr2
      obtain ⟨x, hx, hlen⟩ := padZipInsert_mem b.fit_rows_length.data col i d2 hd2 r2 hr2
      rw [hlen, hfitrows x hx]
    | some cs =>
      have hile : i ≤ cs.length := by
        have hfc : b.fit_rows_length.columns
            = (match b.columns with
               | some h => some (padTo b.count_columns (b.empty_cell_text.getD "") h)
               | none => none) := rfl
        rw [hfc] at hcol
        cases hcol0 : b.columns with
        | none => rw [hcol0] at hcol; cases hcol
        | some cs0 =>
          rw [hcol0] at hcol
          dsimp only at hcol
          cases hcol
          rw [padTo_length, nat_max_ite]
          split_ifs
          all_goals omega
      have hvi := vecInsert_eq (col.headD "") cs i hile
      dsimp only
      rw [hvi]
      obtain ⟨d2, hd2⟩ := padZipInsert_isSome b.fit_rows_length.data col.tail i
        (fun r hr => by rw [hfitrows r hr]; exact hi)
      rw [hd2]
      refine ⟨_, rfl, rfl, ?_⟩
      intro r2 hr2
      simp only at hr2
      obtain ⟨x, hx, hlen⟩ := padZipInsert_mem b.fit_rows_length.data col.tail i d2 hd2 r2 hr2
      rw [hlen, hfitrows x hx]

/-- C5, witness: part one on a consistent two-column builder at index 0;
parts two and three on the jagged builder of the counterexample. -/
theorem column_ops_spec_witness :
    ((Builder.mkDefault.push_record ["a", "b"]).push_record ["c", "d"]).remove_column 0
        = some { (Builder.mkDefault.push_record ["a", "b"]).push_record ["c", "d"] with
            columns := none, data := [["b"], ["d"]], count_columns := 1 } ∧
    (((Builder.mkDefault.push_record ["a", "b"]).push_record ["c"]).push_column
        ["x", "y", "z"]).count_columns = 3 ∧
    (["c", "", "y"] : Row).length = 3 ∧
    (∃ b2, ((Builder.mkDefault.push_record ["a", "b"]).push_record ["c"]).insert_column
        ["x", "y", "z"] 1 = some b2 ∧
      b2.count_columns = 3 ∧ ∀ r ∈ b2.data, r.length = 3) := by
  refine ⟨?_, ?_, ?_, ?_⟩
  · have h := column_ops_spec.1
      ((Builder.mkDefault.push_record ["a", "b"]).push_record ["c", "d"]) 0
      (by decide) (by intro cs hcs; cases hcs) (by decide)
    rw [h]
    rfl
  · exact (column_ops_spec.2.1 ((Builder.mkDefault.push_record ["a", "b"]).push_record ["c"])
      ["x", "y", "z"] (by decide) (by decide)).1
  · exact (column_ops_spec.2.1 ((Builder.mkDefault.push_record ["a", "b"]).push_record ["c"])
      ["x", "y", "z"] (by decide) (by decide)).2 ["c", "", "y"] (by decide)
  · exact column_ops_spec.2.2 ((Builder.mkDefault.push_record ["a", "b"]).push_record ["c"])
      ["x", "y", "z"] 1 (by decide) (by decide) (by intro cs hcs; cases hcs) (by decide)

end ColumnOps

section ExportScenario

theorem nat_max_assoc (a b c : Nat) :
    Nat.max (Nat.max a b) c = Nat.max a (Nat.max b c) := by
  simp only [nat_max_ite]
  split_ifs
  all_goals omega

theorem nat_max_zero_right (a : Nat) : Nat.max a 0 = a := by
  rw [nat_max_ite]
  split_ifs
  all_goals omega

theorem nat_zero_max (a : Nat) : Nat.max 0 a = a := by
  rw [nat_max_ite]
  split_ifs
  all_goals omega

theorem recOpsMax_cons (op : RowOp) (ops : List RowOp) :
    recOpsMax (op :: ops) = Nat.max (recOpSize op) (recOpsMax ops) := rfl

theorem runRecOps_flag :
    ∀ (ops : List RowOp) (b : Builder), b.is_consistent = false →
      (runRecOps b ops).is_consistent = false := by
  intro ops
  induction ops with
  | nil => intro b h; exact h
  | cons op ops ih =>
    intro b h
    cases op with
    | push r => exact ih _ (push_record_flag b r h)
    | header cs => exact ih _ (set_header_flag b cs h)
    | text t => exact ih _ h

theorem runRecOps_count :
    ∀ (ops : List RowOp) (b : Builder),
      (runRecOps b ops).count_columns = Nat.max b.count_columns (recOpsMax ops) := by
  intro ops
  induction ops with
  | nil => intro b; exact (nat_max_zero_right _).symm
  | cons op ops ih =>
    intro b
    cases op with
    | push r =>
      have hstep : (b.push_record r).count_columns
          = (b.update_size r.length).count_columns := rfl
      show (runRecOps (b.push_record r) ops).count_columns = _
      rw [ih (b.push_record r), hstep, update_size_count, recOpsMax_cons,
        nat_max_assoc]
      rfl
    | header cs =>
      have hstep : (b.set_header cs).count_columns
          = (b.update_size cs.length).count_columns := rfl
      show (runRecOps (b.set_header cs) ops).count_columns = _
      rw [ih (b.set_header cs), hstep, update_size_count, recOpsMax_cons,
        nat_max_assoc]
      rfl
    | text t =>
      show (runRecOps (b.set_default_text t) ops).count_columns = _
      rw [ih (b.set_default_text t), recOpsMax_cons]
      have h0 : (b.set_default_text t).count_columns = b.count_columns := rfl
      rw [h0]
      show b.count_columns.max (recOpsMax ops)
        = b.count_columns.max (Nat.max 0 (recOpsMax ops))
      rw [nat_zero_max]

theorem runRecOps_shape :
    ∀ (ops : List RowOp) (b : Builder), ShapeInv b → ShapeInv (runRecOps b ops) := by
  intro ops
  induction ops with
  | nil => intro b h; exact h
  | cons op ops ih =>
    intro b h
    cases op with
    | push r => exact ih _ (push_record_shape b r h)
    | header cs => exact ih _ (set_header_shape b cs h)
    | text t => exact ih _ (set_default_text_shape b t h)

theorem padTo_eq_append (c : Nat) (f : String) (r : Row) (h : r.length ≤ c) :
    padTo c f r = r ++ List.replicate (c - r.length) f := by
  unfold padTo
  split_ifs with h1
  · rfl
  · have h0 : c - r.length = 0 := by omega
    rw [h0]
    simp

/-- C1: running any scenario of `push_record` / `set_header` /
`set_default_text` calls on a fresh builder and exporting the grid yields
only rows of length equal to the maximum width ever supplied (records and
headers both count), each being the original row or header padded with the
builder's current default fill text. -/
theorem export_pads_to_max (ops : List RowOp) :
    (runRecOps Builder.mkDefault ops).count_columns = recOpsMax ops ∧
    ∀ r ∈ (runRecOps Builder.mkDefault ops).intoGrid,
      r.length = recOpsMax ops ∧
      ∃ orig, ((runRecOps Builder.mkDefault ops).columns = some orig ∨
                orig ∈ (runRecOps Builder.mkDefault ops).data) ∧
        r = orig ++ List.replicate (recOpsMax ops - orig.length)
              ((runRecOps Builder.mkDefault ops).empty_cell_text.getD "") := by
  have hcount : (runRecOps Builder.mkDefault ops).count_columns = recOpsMax ops := by
    rw [runRecOps_count]
    exact nat_zero_max _
  have hflag : (runRecOps Builder.mkDefault ops).is_consistent = false :=
    runRecOps_flag ops Builder.mkDefault rfl
  have hshape : ShapeInv (runRecOps Builder.mkDefault ops) := by
    refine runRecOps_shape ops Builder.mkDefault ⟨?_, ?_⟩
    · intro r hr
      cases hr
    · intro cs hcs
      cases hcs
  refine ⟨hcount, ?_⟩
  set b := runRecOps Builder.mkDefault ops with hb
  have hif : (if b.is_consistent then b else b.fit_rows_length) = b.fit_rows_length := by
    rw [hflag]
    rfl
  have hgrid : b.intoGrid =
      match b.fit_rows_length.columns with
      | some cs => cs :: b.fit_rows_length.data
      | none => b.fit_rows_length.data := by
    unfold Builder.intoGrid
    dsimp only
    rw [hif]
  have hrow : ∀ x ∈ b.data,
      (padTo b.count_columns (b.empty_cell_text.getD "") x).length = recOpsMax ops ∧
        padTo b.count_columns (b.empty_cell_text.getD "") x
          = x ++ List.replicate (recOpsMax ops - x.length) (b.empty_cell_text.getD "") := by
    intro x hx
    have hxl := hshape.1 x hx
    constructor
    · rw [padTo_length, nat_max_ite, if_pos hxl]
      exact hcount
    · rw [padTo_eq_append _ _ _ hxl, hcount]
  intro r hr
  rw [hgrid] at hr
  cases hcol : b.columns with
  | none =>
    have hfitcol : b.fit_rows_length.columns = none := by
      unfold Builder.fit_rows_length
      dsimp only
      rw [hcol]
    rw [hfitcol] at hr
    have hfitdata : b.fit_rows_length.data
        = b.data.map (padTo b.count_columns (b.empty_cell_text.getD "")) := rfl
    rw [hfitdata] at hr
    simp only [List.mem_map] at hr
    obtain ⟨x, hx, rfl⟩ := hr
    obtain ⟨hl, he⟩ := hrow x hx
    exact ⟨hl, x, Or.inr hx, he⟩
  | some cs =>
    have hfitcol : b.fit_rows_length.columns
        = some (padTo b.count_columns (b.empty_cell_text.getD "") cs) := by
      unfold Builder.fit_rows_length
      dsimp only
      rw [hcol]
    rw [hfitcol] at hr
    rcases List.mem_cons.mp hr with rfl | hr2
    · have hcl := hshape.2 cs hcol
      constructor
      · rw [padTo_length, nat_max_ite, if_pos hcl]
        exact hcount
      · exact ⟨cs, Or.inl rfl, by rw [padTo_eq_append _ _ _ hcl, hcount]⟩
    · have hfitdata : b.fit_rows_length.data
          = b.data.map (padTo b.count_columns (b.empty_cell_text.getD "")) := rfl
      rw [hfitdata] at hr2
      simp only [List.mem_map] at hr2
      obtain ⟨x, hx, rfl⟩ := hr2
      obtain ⟨hl, he⟩ := hrow x hx
      exact ⟨hl, x, Or.inr hx, he⟩

/-- C1, witness: scenario `push ["a","b"]; push ["c"]` — the exported row
`["c",""]` has length 2 (the maximum pushed) and is the original `["c"]`
padded with the default fill text. -/
theorem export_pads_to_max_witness :
    (runRecOps Builder.mkDefault demoOps).count_columns = 2 ∧
    ((["c", ""] : Row).length = 2 ∧
      ∃ orig, ((runRecOps Builder.mkDefault demoOps).columns = some orig ∨
                orig ∈ (runRecOps Builder.mkDefault demoOps).data) ∧
        ["c", ""] = orig ++ List.replicate (2 - orig.length)
              ((runRecOps Builder.mkDefault demoOps).empty_cell_text.getD "")) := by
  refine ⟨(export_pads_to_max demoOps).1, ?_⟩
  exact (export_pads_to_max demoOps).2 ["c", ""] (by decide)

end ExportScenario

section CleanLemmas

theorem rowIsEmptyGo_eq_rowCheckGo :
    ∀ (rem col : Nat) (data : List Row) (r : Nat) (rw : Row),
      data.get? r = some rw → rowIsEmptyGo data r col rem = rowCheckGo rw col rem := by
  intro rem
  induction rem with
  | zero => intro col data r rw h; rfl
  | succ n ih =>
    intro col data r rw h
    simp only [rowIsEmptyGo, rowCheckGo, h]
    cases hcell : rw.get? col with
    | none => rfl
    | some cell =>
      dsimp only
      split_ifs with hne
      · rfl
      · exact ih (col + 1) data r rw h

theorem rowCheckGo_isSome :
    ∀ (rem col : Nat) (rw : Row), col + rem ≤ rw.length →
      ∃ bb, rowCheckGo rw col rem = some bb := by
  intro rem
  induction rem with
  | zero => intro col rw h; exact ⟨true, rfl⟩
  | succ n ih =>
    intro col rw h
    obtain ⟨cell, hcell⟩ := get_some_of_lt rw col (by omega)
    simp only [rowCheckGo, hcell]
    split_ifs with hne
    · exact ⟨false, rfl⟩
    · exact ih (col + 1) rw (by omega)

theorem lt_length_of_get? :
    ∀ (l : List α) (i : Nat) (a : α), l.get? i = some a → i < l.length := by
  intro l
  induction l with
  | nil => intro i a h; cases h
  | cons x xs ih =>
    intro i a h
    cases i with
    | zero => simp
    | succ n =>
      have := ih n a (by simpa using h)
      simpa using Nat.succ_lt_succ this

theorem rowCheckGo_false_of_cell :
    ∀ (rem col c : Nat) (rw : Row) (t : String), col ≤ c → c < col + rem →
      rw.get? c = some t → t ≠ "" → rowCheckGo rw col rem = some false := by
  intro rem
  induction rem with
  | zero => intro col c rw t h1 h2 h3 h4; omega
  | succ n ih =>
    intro col c rw t h1 h2 h3 h4
    have hclen : c < rw.length := lt_length_of_get? rw c t h3
    obtain ⟨cell, hcell⟩ := get_some_of_lt rw col (by omega)
    simp only [rowCheckGo, hcell]
    split_ifs with hne
    · rfl
    · rcases Nat.eq_or_lt_of_le h1 with rfl | hlt
      · rw [hcell] at h3
        cases h3
        simp at hne
        exact absurd hne h4
      · exact ih (col + 1) c rw t hlt (by omega) h3 h4

theorem isEmptyColumn_isSome :
    ∀ (data : List Row) (c : Nat), (∀ rw ∈ data, c < rw.length) →
      ∃ bb, isEmptyColumn data c = some bb := by
  intro data
  induction data with
  | nil => intro c h; exact ⟨true, rfl⟩
  | cons rw rest ih =>
    intro c h
    obtain ⟨cell, hcell⟩ := get_some_of_lt rw c (h rw (List.mem_cons_self _ _))
    simp only [isEmptyColumn, hcell]
    split_ifs with hne
    · exact ⟨false, rfl⟩
    · exact ih c (fun x hx => h x (List.mem_cons_of_mem rw hx))

theorem isEmptyColumn_removeColEvery :
    ∀ (data d2 : List Row) (i c : Nat), removeColEvery data i = some d2 → c < i →
      isEmptyColumn d2 c = isEmptyColumn data c := by
  intro data
  induction data with
  | nil =>
    intro d2 i c h hc
    cases h
    rfl
  | cons rw rest ih =>
    intro d2 i c h hc
    simp only [removeColEvery] at h
    cases hv : vecRemove rw i with
    | none => rw [hv] at h; cases h
    | some rw2 =>
      rw [hv] at h
      cases hrest : removeColEvery rest i with
      | none => rw [hrest] at h; cases h
      | some rest2 =>
        rw [hrest] at h
        cases h
        have hget := vecRemove_get_lt rw rw2 i hv c hc
        simp only [isEmptyColumn, hget]
        cases hcell : rw.get? c with
        | none => rfl
        | some cell =>
          dsimp only
          split_ifs with hne
          · rfl
          · exact ih rest2 i c hrest hc

theorem isEmptyColumn_filter :
    ∀ (data : List Row) (p : Row → Bool) (c : Nat),
      isEmptyColumn data c = some false →
      (∀ rw t, rw ∈ data → rw.get? c = some t → t ≠ "" → p rw = true) →
      isEmptyColumn (data.filter p) c = some false := by
  intro data
  induction data with
  | nil => intro p c h hp; cases h
  | cons rw rest ih =>
    intro p c h hp
    simp only [isEmptyColumn] at h
    cases hcell : rw.get? c with
    | none => rw [hcell] at h; cases h
    | some cell =>
      rw [hcell] at h
      dsimp only at h
      by_cases hne : cell = ""
      · rw [if_neg (by simp [hne])] at h
        have hrest := ih p c h
          (fun x t hx ht htne => hp x t (List.mem_cons_of_mem rw hx) ht htne)
        rw [List.filter_cons]
        split_ifs with hkeep
        · simp only [isEmptyColumn, hcell]
          rw [if_neg (show ¬cell ≠ "" by simp [hne])]
          exact hrest
        · exact hrest
      · have hkeep : p rw = true := hp rw cell (List.mem_cons_self _ _) hcell hne
        rw [List.filter_cons, if_pos hkeep]
        simp only [isEmptyColumn, hcell]
        rw [if_pos hne]

end CleanLemmas

section CleanLoops

theorem cleanColumnsGo_post :
    ∀ (rem : Nat) (data : List Row) (head : Option Row) (deleted col : Nat)
      (data2 : List Row) (head2 : Option Row) (d : Nat),
      cleanColumnsGo data head deleted col rem = some (data2, head2, d) →
      deleted ≤ col →
      (∀ c, c < col - deleted → isEmptyColumn data c = some false) →
      ∀ c, c < (col + rem) - d → isEmptyColumn data2 c = some false := by
  intro rem
  induction rem with
  | zero =>
    intro data head deleted col data2 head2 d heq hle hpre c hc
    simp only [cleanColumnsGo] at heq
    cases heq
    exact hpre c (by omega)
  | succ n ih =>
    intro data head deleted col data2 head2 d heq hle hpre c hc
    simp only [cleanColumnsGo] at heq
    cases hec : isEmptyColumn data (col - deleted) with
    | none => rw [hec] at heq; cases heq
    | some bb =>
      rw [hec] at heq
      cases bb with
      | false =>
        dsimp only at heq
        have hpre2 : ∀ c2, c2 < (col + 1) - deleted → isEmptyColumn data c2 = some false := by
          intro c2 hc2
          have : c2 < col - deleted ∨ c2 = col - deleted := by omega
          rcases this with h2 | h2
          · exact hpre c2 h2
          · rw [h2]; exact hec
        exact ih data head deleted (col + 1) data2 head2 d heq (by omega) hpre2 c (by omega)
      | true =>
        dsimp only at heq
        cases hrv : removeColEvery data (col - deleted) with
        | none => rw [hrv] at heq; cases heq
        | some dataX =>
          rw [hrv] at heq
          have hpre2 : ∀ c2, c2 < (col + 1) - (deleted + 1) →
              isEmptyColumn dataX c2 = some false := by
            intro c2 hc2
            have hc2' : c2 < col - deleted := by omega
            rw [isEmptyColumn_removeColEvery data dataX (col - deleted) c2 hrv hc2']
            exact hpre c2 hc2'
          exact ih dataX (trimHeadCol head (col - deleted)) (deleted + 1) (col + 1)
            data2 head2 d heq (by omega) hpre2 c (by omega)

theorem cleanColumnsGo_noop :
    ∀ (rem col : Nat) (data : List Row) (head : Option Row),
      (∀ c, col ≤ c → c < col + rem → isEmptyColumn data c = some false) →
      cleanColumnsGo data head 0 col rem = some (data, head, 0) := by
  intro rem
  induction rem with
  | zero => intro col data head h; rfl
  | succ n ih =>
    intro col data head h
    have hcol : isEmptyColumn data (col - 0) = some false := by
      rw [Nat.sub_zero]
      exact h col (Nat.le_refl col) (by omega)
    simp only [cleanColumnsGo, hcol]
    exact ih (col + 1) data head (fun c h1 h2 => h c (by omega) (by omega))

theorem cleanColumnsGo_isSome :
    ∀ (rem : Nat) (data : List Row) (head : Option Row) (deleted col : Nat),
      deleted ≤ col →
      (∀ rw ∈ data, (col + rem) - deleted ≤ rw.length) →
      ∃ data2 head2 d,
        cleanColumnsGo data head deleted col rem = some (data2, head2, d) ∧
          ∀ rw ∈ data2, (col + rem) - d ≤ rw.length := by
  intro rem
  induction rem with
  | zero =>
    intro data head deleted col hle hlen
    exact ⟨data, head, deleted, rfl, fun rw hrw => hlen rw hrw⟩
  | succ n ih =>
    intro data head deleted col hle hlen
    have hc0 : ∀ rw ∈ data, col - deleted < rw.length := by
      intro rw hrw
      have := hlen rw hrw
      omega
    obtain ⟨bb, hec⟩ := isEmptyColumn_isSome data (col - deleted) hc0
    cases bb with
    | false =>
      obtain ⟨data2, head2, d, heq, hpost⟩ := ih data head deleted (col + 1)
        (by omega) (by intro rw hrw; have := hlen rw hrw; omega)
      refine ⟨data2, head2, d, ?_, ?_⟩
      · simp only [cleanColumnsGo, hec]
        exact heq
      · intro rw hrw
        have := hpost rw hrw
        omega
    | true =>
      have hrv := removeColEvery_eq data (col - deleted) hc0
      have hlenX : ∀ rw2 ∈ data.map
          (fun r => r.take (col - deleted) ++ r.drop ((col - deleted) + 1)),
          ((col + 1) + n) - (deleted + 1) ≤ rw2.length := by
        intro rw2 hrw2
        simp only [List.mem_map] at hrw2
        obtain ⟨x, hx, rfl⟩ := hrw2
        have hx1 := hlen x hx
        have hx2 := hc0 x hx
        simp only [List.length_append, List.length_take, List.length_drop]
        have hmin : min (col - deleted) x.length = col - deleted := by
          have hd : min (col - deleted) x.length
              = Nat.min (col - deleted) x.length := rfl
          rw [hd, nat_min_ite, if_pos (Nat.le_of_lt hx2)]
        rw [hmin]
        omega
      obtain ⟨data2, head2, d, heq, hpost⟩ := ih
        (data.map (fun r => r.take (col - deleted) ++ r.drop ((col - deleted) + 1)))
        (trimHeadCol head (col - deleted)) (deleted + 1) (col + 1) (by omega) hlenX
      refine ⟨data2, head2, d, ?_, ?_⟩
      · simp only [cleanColumnsGo, hec, hrv]
        exact heq
      · intro rw hrw
        have := hpost rw hrw
        omega

theorem cleanRowsGo_spec :
    ∀ (post pre : List Row) (count deleted : Nat) (out : List Row),
      cleanRowsGo (pre ++ post) count deleted (deleted + pre.length) post.length
          = some out →
      out = pre ++ post.filter (keepRow count) := by
  intro post
  induction post with
  | nil =>
    intro pre count deleted out heq
    simp only [List.length_nil, List.append_nil, cleanRowsGo] at heq
    cases heq
    simp
  | cons rw rs ih =>
    intro pre count deleted out heq
    have harith : deleted + pre.length - deleted = pre.length := by omega
    have hget : (pre ++ rw :: rs).get? pre.length = some rw := get_append_len rw pre rs
    have hrie : rowIsEmpty (pre ++ rw :: rs) (deleted + pre.length - deleted) count
        = rowCheck rw count := by
      rw [harith]
      unfold rowIsEmpty rowCheck
      exact rowIsEmptyGo_eq_rowCheckGo count 0 (pre ++ rw :: rs) pre.length rw hget
    simp only [List.length_cons, cleanRowsGo] at heq
    rw [hrie] at heq
    cases hrc : rowCheck rw count with
    | none => rw [hrc] at heq; cases heq
    | some bb =>
      rw [hrc] at heq
      cases bb with
      | false =>
        dsimp only at heq
        have hsplit : pre ++ rw :: rs = (pre ++ [rw]) ++ rs := by simp
        have hlen2 : deleted + pre.length + 1 = deleted + (pre ++ [rw]).length := by
          simp only [List.length_append, List.length_singleton]
          omega
        rw [hsplit, hlen2] at heq
        have hout := ih (pre ++ [rw]) count deleted out heq
        rw [hout]
        have hkeep : keepRow count rw = true := by
          unfold keepRow
          simp [hrc]
        rw [List.filter_cons, if_pos hkeep]
        simp
      | true =>
        dsimp only at heq
        have hvr : vecRemove (pre ++ rw :: rs) (deleted + pre.length - deleted)
            = some (pre ++ rs) := by
          rw [harith]
          exact vecRemove_pre rw pre rs
        rw [hvr] at heq
        dsimp only at heq
        have hlen2 : deleted + pre.length + 1 = (deleted + 1) + pre.length := by omega
        rw [hlen2] at heq
        have hout := ih pre count (deleted + 1) out heq
        rw [hout]
        have hkeep : keepRow count rw = false := by
          unfold keepRow
          simp [hrc]
        rw [List.filter_cons, if_neg (by simp [hkeep])]

theorem cleanRowsGo_noop :
    ∀ (rem row : Nat) (data : List Row) (count : Nat), row + rem = data.length →
      (∀ r, r < data.length → rowIsEmpty data r count = some false) →
      cleanRowsGo data count 0 row rem = some data := by
  intro rem
  induction rem with
  | zero => intro row data count h1 h2; rfl
  | succ n ih =>
    intro row data count h1 h2
    have hrow : rowIsEmpty data (row - 0) count = some false := by
      rw [Nat.sub_zero]
      exact h2 row (by omega)
    simp only [cleanRowsGo, hrow]
    exact ih (row + 1) data count (by omega) h2

theorem cleanRowsGo_isSome :
    ∀ (rem : Nat) (data : List Row) (count deleted row : Nat), deleted ≤ row →
      (row - deleted) + rem = data.length →
      (∀ rw ∈ data, count ≤ rw.length) →
      ∃ out, cleanRowsGo data count deleted row rem = some out := by
  intro rem
  induction rem with
  | zero => intro data count deleted row h1 h2 h3; exact ⟨data, rfl⟩
  | succ n ih =>
    intro data count deleted row h1 h2 h3
    have hlt : row - deleted < data.length := by omega
    obtain ⟨rw, hget⟩ := get_some_of_lt data (row - deleted) hlt
    have hmem := mem_of_get? data (row - deleted) rw hget
    obtain ⟨bb, hrc⟩ := rowCheckGo_isSome count 0 rw (by have := h3 rw hmem; omega)
    have hrie : rowIsEmpty data (row - deleted) count = some bb := by
      unfold rowIsEmpty
      rw [rowIsEmptyGo_eq_rowCheckGo count 0 data (row - deleted) rw hget]
      exact hrc
    cases bb with
    | false =>
      simp only [cleanRowsGo, hrie]
      exact ih data count deleted (row + 1) (by omega) (by omega) h3
    | true =>
      have hvr := vecRemove_some_of_lt data (row - deleted) hlt
      have hvl := vecRemove_length data
        (data.take (row - deleted) ++ data.drop ((row - deleted) + 1))
        (row - deleted) hvr
      have hvm := vecRemove_mem data
        (data.take (row - deleted) ++ data.drop ((row - deleted) + 1))
        (row - deleted) hvr
      simp only [cleanRowsGo, hrie, hvr]
      exact ih (data.take (row - deleted) ++ data.drop ((row - deleted) + 1))
        count (deleted + 1) (row + 1) (by omega) (by omega)
        (fun rw2 hrw2 => h3 rw2 (hvm rw2 hrw2))

end CleanLoops

section CleanMain

/-- C7: `clean()` is idempotent — whenever a first `clean` runs in bounds and
produces `b2`, running `clean` on `b2` succeeds and returns `b2` unchanged
(same rows, header, `count_columns`, and hence the same exported grid). -/
theorem clean_idempotent (b b2 : Builder) (h : b.clean = some b2) :
    b2.clean = some b2 := by
  unfold Builder.clean at h
  cases hcc : clean_columns b.data b.columns b.count_columns with
  | none => rw [hcc] at h; cases h
  | some out =>
    rw [hcc] at h
    obtain ⟨data2, head2, deleted⟩ := out
    dsimp only at h
    cases hcr : clean_rows data2 (b.count_columns - deleted) with
    | none => rw [hcr] at h; cases h
    | some data3 =>
      rw [hcr] at h
      cases h
      have ha0 : ∀ c, c < b.count_columns - deleted →
          isEmptyColumn data2 c = some false := by
        intro c hc
        exact cleanColumnsGo_post b.count_columns b.data b.columns 0 0
          data2 head2 deleted hcc (Nat.le_refl 0)
          (by intro c2 hc2; omega) c (by omega)
      have hfil : data3 = data2.filter (keepRow (b.count_columns - deleted)) := by
        have hspec := cleanRowsGo_spec data2 [] (b.count_columns - deleted) 0 data3 hcr
        simpa using hspec
      have hb : ∀ r, r < data3.length →
          rowIsEmpty data3 r (b.count_columns - deleted) = some false := by
        intro r hr
        obtain ⟨rw2, hget⟩ := get_some_of_lt data3 r hr
        have hmem := mem_of_get? data3 r rw2 hget
        rw [hfil, List.mem_filter] at hmem
        have hkeep := hmem.2
        unfold keepRow at hkeep
        have hrc : rowCheck rw2 (b.count_columns - deleted) = some false :=
          of_decide_eq_true hkeep
        unfold rowIsEmpty
        rw [rowIsEmptyGo_eq_rowCheckGo (b.count_columns - deleted) 0 data3 r rw2 hget]
        exact hrc
      have ha : ∀ c, c < b.count_columns - deleted →
          isEmptyColumn data3 c = some false := by
        intro c hc
        rw [hfil]
        apply isEmptyColumn_filter data2 (keepRow (b.count_columns - deleted)) c
          (ha0 c hc)
        intro rw2 t hrw2 ht htne
        unfold keepRow
        apply decide_eq_true
        unfold rowCheck
        exact rowCheckGo_false_of_cell (b.count_columns - deleted) 0 c rw2 t
          (Nat.zero_le c) (by omega) ht htne
      unfold Builder.clean
      dsimp only
      have hcc2 : clean_columns data3 head2 (b.count_columns - deleted)
          = some (data3, head2, 0) := by
        unfold clean_columns
        exact cleanColumnsGo_noop (b.count_columns - deleted) 0 data3 head2
          (fun c h1 h2 => ha c (by omega))
      rw [hcc2]
      dsimp only
      have hcr2 : clean_rows data3 (b.count_columns - deleted - 0) = some data3 := by
        rw [Nat.sub_zero]
        unfold clean_rows
        exact cleanRowsGo_noop data3.length 0 data3 (b.count_columns - deleted)
          (by omega) hb
      rw [hcr2]
      rfl

/-- C7, witness: cleaning `[["a"],[""]]` removes the empty row; cleaning the
result returns it unchanged. -/
theorem clean_idempotent_witness :
    Builder.clean
        ({ data := [["a"]], columns := none, count_columns := 1,
           is_consistent := false, empty_cell_text := none } : Builder)
      = some
        ({ data := [["a"]], columns := none, count_columns := 1,
           is_consistent := false, empty_cell_text := none } : Builder) :=
  clean_idempotent demoCleanOk _ (by decide)

/-- C10: `clean()` performs column-indexed reads without normalizing first:
whenever every stored row has at least `count_columns` cells it is fully
defined, and on a builder holding a too-short row its cell access can run out
of bounds (the concrete `demoCleanBad`, rows `[[""],[]]` with
`count_columns = 1`, panics — modelled by `none`). -/
theorem clean_defined :
    (∀ b : Builder, (∀ rw ∈ b.data, b.count_columns ≤ rw.length) →
      ∃ b2, b.clean = some b2) ∧
    Builder.clean demoCleanBad = none := by
  constructor
  · intro b hlen
    obtain ⟨data2, head2, d, hcc, hpost⟩ :=
      cleanColumnsGo_isSome b.count_columns b.data b.columns 0 0 (Nat.le_refl 0)
        (by intro rw hrw; have := hlen rw hrw; omega)
    obtain ⟨data3, hcr⟩ :=
      cleanRowsGo_isSome data2.length data2 (b.count_columns - d) 0 0
        (Nat.le_refl 0) (by omega)
        (by intro rw hrw; have := hpost rw hrw; omega)
    refine ⟨{ b with data := data3, columns := head2,
                     count_columns := b.count_columns - d }, ?_⟩
    unfold Builder.clean
    have hcc2 : clean_columns b.data b.columns b.count_columns
        = some (data2, head2, d) := hcc
    rw [hcc2]
    dsimp only
    have hcr2 : clean_rows data2 (b.count_columns - d) = some data3 := hcr
    rw [hcr2]
  · rfl

/-- C10, witness: `clean` is defined on `[["a"],[""]]` (all rows long
enough) and undefined on `[[""],[]]`. -/
theorem clean_defined_witness :
    (∃ b2, Builder.clean demoCleanOk = some b2) ∧
      Builder.clean demoCleanBad = none :=
  ⟨clean_defined.1 demoCleanOk (by decide), clean_defined.2⟩

end CleanMain

end TabledSpec
